import Mathlib

/-!
Verification of csvdistinct: a shallow embedding of `csv.go`

`ReadCSV` opens a file, parses it with `encoding/csv`, resolves an identifying
column and then hands rows to a callback, one call per distinct key found by
its scanning loop.

Modelling decisions.

* `os.Open` and `csv.Reader.ReadAll` are external: their combined result is the
  value of type `Source` passed to `ReadCSV` (an error of either step, or the
  parsed records).
* `idColumn interface{}` is inspected by the source with two type assertions
  (`int`, `string`); `IdColumn` has one constructor for each and a third one
  for every other dynamic type.
* A Go run either returns an `error` value (possibly `nil`) or panics with a
  run-time error (index or slice bound out of range); `Result` records which.
* The callback is a parameter of the source; a run is observed through the
  list of arguments it was called with, in call order (`Outcome.calls`).
* `map[string][]int` is an association list in order of first insertion.  Go
  leaves the iteration order of a map unspecified; the scanning loop of
  `ReadCSV` ranges over `records[:startIndex]` with `startIndex ≤ 1`, so the
  map never holds more than one key and the order cannot be observed.
* The grouping step (lines 95-111) is a function of the document, of
  `startIndex` and of `column`, and its properties are stated for every value
  of `startIndex`, not only for the two values `ReadCSV` passes.  Those
  statements speak of each call, or of any two calls, so they do not depend on
  the order in which the map is iterated.  For a boundary above the length of
  the document the model panics without a call; a Go slice with spare capacity
  would expose nil rows there, whose indexing panics before any call as well.
-/

namespace Csvdistinct

/-- The `error` values `ReadCSV` can return: the two package-level errors, and
an error produced by `os.Open` or by `ReadAll`, kept as its message. -/
inductive Error where
  | ErrInvalidIDColumn
  | ErrIDColumnMissing
  | external (msg : String)
  deriving DecidableEq, Repr

/-- Config contains any options for reading the CSV (`rune` and `int` fields
are integers). -/
structure Config where
  HasHeader : Bool
  Comma : Int
  Comment : Int
  FieldsPerRecord : Int
  LazyQuotes : Bool
  TrailingComma : Bool
  TrimLeadingSpace : Bool
  deriving DecidableEq, Repr

/-- CSVDistinct is a struct to contain the Config. -/
structure CSVDistinct where
  Config : Config
  deriving DecidableEq, Repr

/-- NewCSVDistinctReader: `new(CSVDistinct)` is the zero value of every field,
then `Comma` is set to the code point of the comma character. -/
def NewCSVDistinctReader : CSVDistinct :=
  { Config :=
      { HasHeader := false
        Comma := 44
        Comment := 0
        FieldsPerRecord := 0
        LazyQuotes := false
        TrailingComma := false
        TrimLeadingSpace := false } }

/-- The dynamic type of the `idColumn interface{}` argument, as far as the two
type assertions of `ReadCSV` can tell. -/
inductive IdColumn where
  | int (intValue : Int)
  | string (strValue : String)
  | other
  deriving DecidableEq, Repr

/-- What `os.Open(file)` followed by `rdr.ReadAll()` produced. -/
inductive Source where
  | openFails (msg : String)
  | readFails (msg : String)
  | records (records : List (List String))
  deriving DecidableEq, Repr

/-- How a run of `ReadCSV` ends: it returns an error value (`none` is `nil`),
or it panics. -/
inductive Result where
  | ret (err : Option Error)
  | panic
  deriving DecidableEq, Repr

/-- A run of `ReadCSV`: how it ended and the arguments of the successive calls
of `onDistinct`. -/
structure Outcome where
  result : Result
  calls : List (List (List String))
  deriving DecidableEq, Repr

/-- What lines 66-93 of `ReadCSV` leave behind: the resolved `column` and
`startIndex`, or the way the run ends there. -/
inductive Resolved where
  | ok (column : Int) (startIndex : Nat)
  | stop (r : Result)
  deriving DecidableEq, Repr

/-- Go indexing `v[column]` of a row with an `int`: `none` is the run-time
panic for an index that is negative or not below the length. -/
def index (v : List String) (column : Int) : Option String :=
  if 0 ≤ column then v[column.toNat]? else none

/-- The loop of lines 74-78, `for i, v := range records[0]`, started at
position `i` with the current value of `column`: every field equal to
`strValue` overwrites `column` with its position. -/
def headerLoop (strValue : String) : List String → Nat → Int → Int
  | [], _, column => column
  | v :: rest, i, column =>
      headerLoop strValue rest (i + 1) (if v = strValue then (i : Int) else column)

/-- The statement `distinctValues[key] = append(distinctValues[key], i)` on the
association list standing for the map. -/
def mapAppend : List (String × List Nat) → String → Nat → List (String × List Nat)
  | [], key, i => [(key, [i])]
  | (k, v) :: rest, key, i =>
      if k = key then (k, v ++ [i]) :: rest else (k, v) :: mapAppend rest key i

/-- The loop of lines 98-100 over the rows `rows`, started at position `i` with
the map `distinctValues`; `none` when `v[column]` panics. -/
def scanLoop (column : Int) :
    List (List String) → Nat → List (String × List Nat) → Option (List (String × List Nat))
  | [], _, distinctValues => some distinctValues
  | v :: rest, i, distinctValues =>
      match index v column with
      | none => none
      | some key => scanLoop column rest (i + 1) (mapAppend distinctValues key i)

/-- The inner loop of lines 104-106: the rows `records[rowIndex]` for the
indices of one map entry; `none` when an index is out of range. -/
def collectRows (records : List (List String)) : List Nat → Option (List (List String))
  | [] => some []
  | rowIndex :: rest =>
      match records[rowIndex]?, collectRows records rest with
      | some row, some rows => some (row :: rows)
      | _, _ => none

/-- The loop of lines 102-109 over the entries of the map, `calls` being the
callback arguments so far. -/
def callbackLoop (records : List (List String)) :
    List (String × List Nat) → List (List (List String)) → Outcome
  | [], calls => ⟨.ret none, calls⟩
  | (_, v) :: rest, calls =>
      match collectRows records v with
      | none => ⟨.panic, calls⟩
      | some rows => callbackLoop records rest (calls ++ [rows])

/-- Lines 95-111 of `ReadCSV`: scan `records[:startIndex]`, then call back once
per map entry.  The slice expression panics when `startIndex` exceeds the
capacity of `records`; `ReadAll` returns a nil slice for a document without
rows, and `startIndex` is `0` or `1`, so this is `startIndex > len(records)`. -/
def grouping (records : List (List String)) (startIndex : Nat) (column : Int) : Outcome :=
  if startIndex ≤ records.length then
    match scanLoop column (records.take startIndex) 0 [] with
    | none => ⟨.panic, []⟩
    | some distinctValues => callbackLoop records distinctValues []
  else ⟨.panic, []⟩

/-- Lines 66-93 of `ReadCSV`: the resolved `(column, startIndex)`, or the way
the run ends there (an error return, or the panic of `records[0]` on a
document without rows). -/
def resolve (v : CSVDistinct) (records : List (List String)) (idColumn : IdColumn) :
    Resolved :=
  if v.Config.HasHeader then
    match idColumn with
    | .int intValue => .ok intValue 1
    | .string strValue =>
        match records with
        | [] => .stop .panic
        | header :: _ =>
            let column := headerLoop strValue header 0 (-1)
            if column = -1 then .stop (.ret (some .ErrIDColumnMissing))
            else .ok column 1
    | .other => .stop (.ret (some .ErrInvalidIDColumn))
  else
    match idColumn with
    | .int intValue => .ok intValue 0
    | _ => .stop (.ret (some .ErrInvalidIDColumn))

/-- ReadCSV opens the file and scans the document for unique values in the
idColumn; `file` is what opening and parsing produced. -/
def ReadCSV (v : CSVDistinct) (file : Source) (idColumn : IdColumn) : Outcome :=
  match file with
  | .openFails msg => ⟨.ret (some (.external msg)), []⟩
  | .readFails msg => ⟨.ret (some (.external msg)), []⟩
  | .records records =>
      match resolve v records idColumn with
      | .stop r => ⟨r, []⟩
      | .ok column startIndex => grouping records startIndex column

/-- A reader with the given header setting and otherwise default options. -/
def reader (hasHeader : Bool) : CSVDistinct :=
  { NewCSVDistinctReader with Config := { NewCSVDistinctReader.Config with HasHeader := hasHeader } }

/-- Invariant of the scanning loop: the index list of every map entry is
strictly increasing and holds only positions below `n`. -/
def GroupsBelow (distinctValues : List (String × List Nat)) (n : Nat) : Prop :=
  ∀ kv ∈ distinctValues, kv.2.Pairwise (· < ·) ∧ ∀ j ∈ kv.2, j < n

/-- Second invariant of the scanning loop over the rows `rows`: the keys of the
map are pairwise distinct, no entry has an empty index list, and every index of
an entry points at a row of `rows` that holds the key of the entry at
`column`. -/
def GroupsKeyed (rows : List (List String)) (column : Int)
    (distinctValues : List (String × List Nat)) : Prop :=
  (distinctValues.map Prod.fst).Nodup ∧
    ∀ kv ∈ distinctValues, kv.2 ≠ [] ∧
      ∀ j ∈ kv.2, ∃ row, rows[j]? = some row ∧ index row column = some kv.1

/-! ## The header loop -/

theorem headerLoop_of_not_mem (strValue : String) :
    ∀ (header : List String) (i : Nat) (column : Int),
      strValue ∉ header → headerLoop strValue header i column = column
  | [], _, _, _ => rfl
  | v :: rest, i, column, h => by
      have hv : v ≠ strValue := fun e => h (e ▸ List.mem_cons_self _ _)
      have hr : strValue ∉ rest := fun m => h (List.mem_cons_of_mem _ m)
      simp [headerLoop, hv, headerLoop_of_not_mem strValue rest (i + 1) column hr]

theorem headerLoop_of_mem (strValue : String) :
    ∀ (header : List String) (i : Nat) (column : Int), strValue ∈ header →
      ∃ k : Nat, headerLoop strValue header i column = ((i + k : Nat) : Int) ∧
        header[k]? = some strValue ∧ ∀ j, header[j]? = some strValue → j ≤ k
  | [], _, _, h => by simp at h
  | v :: rest, i, column, h => by
      by_cases hr : strValue ∈ rest
      · obtain ⟨k, hk, hget, hmax⟩ :=
          headerLoop_of_mem strValue rest (i + 1) (if v = strValue then (i : Int) else column) hr
        refine ⟨k + 1, ?_, by simpa using hget, ?_⟩
        · rw [headerLoop, hk]
          congr 1
          omega
        · intro j hj
          cases j with
          | zero => omega
          | succ j =>
              have := hmax j (by simpa using hj)
              omega
      · have hv : v = strValue := by
          rcases List.mem_cons.mp h with e | m
          · exact e.symm
          · exact absurd m hr
        refine ⟨0, ?_, by simp [hv], ?_⟩
        · rw [headerLoop, headerLoop_of_not_mem strValue rest _ _ hr]
          simp [hv]
        · intro j hj
          cases j with
          | zero => exact Nat.le_refl 0
          | succ j =>
              have hm : strValue ∈ rest := by
                have : rest[j]? = some strValue := by simpa using hj
                exact List.getElem?_mem this
              exact absurd hm hr

/-! ## The callback loop and the grouping step -/

theorem callbackLoop_result (records : List (List String)) :
    ∀ (distinctValues : List (String × List Nat)) (calls : List (List (List String))),
      (callbackLoop records distinctValues calls).result = .ret none ∨
        (callbackLoop records distinctValues calls).result = .panic
  | [], _ => Or.inl rfl
  | (_, v) :: rest, calls => by
      unfold callbackLoop
      cases collectRows records v with
      | none => exact Or.inr rfl
      | some rows => exact callbackLoop_result records rest (calls ++ [rows])

theorem grouping_result (records : List (List String)) (startIndex : Nat) (column : Int) :
    (grouping records startIndex column).result = .ret none ∨
      (grouping records startIndex column).result = .panic := by
  unfold grouping
  split
  · split
    · exact Or.inr rfl
    · exact callbackLoop_result records _ []
  · exact Or.inr rfl

/-! ## The scanning loop keeps index lists increasing -/

theorem groupsBelow_nil (n : Nat) : GroupsBelow [] n := by
  intro kv h
  simp at h

theorem mapAppend_groupsBelow (key : String) (i : Nat) :
    ∀ distinctValues : List (String × List Nat),
      GroupsBelow distinctValues i → GroupsBelow (mapAppend distinctValues key i) (i + 1)
  | [], _ => by
      intro kv h
      simp only [mapAppend, List.mem_singleton] at h
      subst h
      simp
  | (k, v) :: rest, hinv => by
      have hhead := hinv (k, v) (List.mem_cons_self _ _)
      have htail : GroupsBelow rest i := fun kv h => hinv kv (List.mem_cons_of_mem _ h)
      have ih := mapAppend_groupsBelow key i rest htail
      intro kv h
      unfold mapAppend at h
      split at h
      · rcases List.mem_cons.mp h with e | m
        · subst e
          refine ⟨?_, ?_⟩
          · rw [List.pairwise_append]
            refine ⟨hhead.1, List.pairwise_singleton _ _, ?_⟩
            intro a ha b hb
            rw [List.mem_singleton] at hb
            subst hb
            exact hhead.2 a ha
          · intro j hj
            rcases List.mem_append.mp hj with h1 | h1
            · exact Nat.lt_succ_of_lt (hhead.2 j h1)
            · rw [List.mem_singleton] at h1
              omega
        · exact ⟨(htail kv m).1, fun j hj => Nat.lt_succ_of_lt ((htail kv m).2 j hj)⟩
      · rcases List.mem_cons.mp h with e | m
        · subst e
          exact ⟨hhead.1, fun j hj => Nat.lt_succ_of_lt (hhead.2 j hj)⟩
        · exact ih kv m

theorem scanLoop_groupsBelow (column : Int) :
    ∀ (rows : List (List String)) (i : Nat) (distinctValues result : List (String × List Nat)),
      GroupsBelow distinctValues i → scanLoop column rows i distinctValues = some result →
      GroupsBelow result (i + rows.length)
  | [], i, distinctValues, result, hinv, h => by
      simp only [scanLoop, Option.some.injEq] at h
      subst h
      simpa using hinv
  | v :: rest, i, distinctValues, result, hinv, h => by
      unfold scanLoop at h
      cases hk : index v column with
      | none => simp [hk] at h
      | some key =>
          simp only [hk] at h
          have := scanLoop_groupsBelow column rest (i + 1) _ result
            (mapAppend_groupsBelow key i distinctValues hinv) h
          simpa [Nat.add_assoc, Nat.add_comm 1] using this

theorem collectRows_some (records : List (List String)) :
    ∀ (idxs : List Nat) (rows : List (List String)), collectRows records idxs = some rows →
      idxs.map (fun i => records[i]?) = rows.map some
  | [], rows, h => by
      simp only [collectRows, Option.some.injEq] at h
      subst h
      rfl
  | rowIndex :: rest, rows, h => by
      unfold collectRows at h
      cases hr : records[rowIndex]? with
      | none => simp [hr] at h
      | some row =>
          cases hc : collectRows records rest with
          | none => simp [hr, hc] at h
          | some rows0 =>
              simp only [hr, hc, Option.some.injEq] at h
              subst h
              simp [hr, collectRows_some records rest rows0 hc]

theorem callbackLoop_calls (records : List (List String)) (call : List (List String)) :
    ∀ (distinctValues : List (String × List Nat)) (calls : List (List (List String))),
      call ∈ (callbackLoop records distinctValues calls).calls →
      call ∈ calls ∨ ∃ kv ∈ distinctValues, collectRows records kv.2 = some call
  | [], calls, h => Or.inl h
  | (k, v) :: rest, calls, h => by
      unfold callbackLoop at h
      cases hc : collectRows records v with
      | none =>
          simp only [hc] at h
          exact Or.inl h
      | some rows =>
          simp only [hc] at h
          rcases callbackLoop_calls records call rest (calls ++ [rows]) h with h1 | ⟨kv, hkv, hrows⟩
          · rcases List.mem_append.mp h1 with h2 | h2
            · exact Or.inl h2
            · rw [List.mem_singleton] at h2
              subst h2
              exact Or.inr ⟨(k, v), List.mem_cons_self _ _, hc⟩
          · exact Or.inr ⟨kv, List.mem_cons_of_mem _ hkv, hrows⟩

/-- Rows read at strictly increasing positions of a document form a sublist of
the document. -/
theorem sublist_of_increasing_indices (records : List (List String)) :
    ∀ (idxs : List Nat) (call : List (List String)) (n : Nat),
      idxs.Pairwise (· < ·) → (∀ i ∈ idxs, n ≤ i) →
      idxs.map (fun i => records[i]?) = call.map some → call.Sublist (records.drop n)
  | [], call, n, _, _, h => by
      cases call with
      | nil => exact List.nil_sublist _
      | cons a t => simp at h
  | hd :: tl, call, n, hp, hn, h => by
      cases call with
      | nil => simp at h
      | cons r call0 =>
          simp only [List.map_cons, List.cons.injEq] at h
          obtain ⟨hr, ht⟩ := h
          have hlt : hd < records.length := (List.getElem?_eq_some_iff.mp hr).1
          have hget : records[hd] = r := (List.getElem?_eq_some_iff.mp hr).2
          have ih := sublist_of_increasing_indices records tl call0 (hd + 1)
            (List.pairwise_cons.mp hp).2 (fun i hi => (List.pairwise_cons.mp hp).1 i hi) ht
          have hdrop : records.drop hd = r :: records.drop (hd + 1) := by
            rw [← hget]
            exact List.drop_eq_getElem_cons hlt
          have h1 : (r :: call0).Sublist (records.drop hd) := by
            rw [hdrop]
            exact ih.cons₂ r
          exact h1.trans (List.drop_sublist_drop_left records (hn hd (List.mem_cons_self _ _)))

theorem grouping_calls (records : List (List String)) (startIndex : Nat) (column : Int)
    (call : List (List String)) (h : call ∈ (grouping records startIndex column).calls) :
    ∃ idxs : List Nat, idxs.Pairwise (· < ·) ∧ (∀ i ∈ idxs, i < startIndex) ∧
      idxs.map (fun i => records[i]?) = call.map some := by
  unfold grouping at h
  split at h
  · rename_i hle
    split at h
    · simp at h
    · rename_i distinctValues hscan
      have hinv := scanLoop_groupsBelow column _ 0 [] distinctValues (groupsBelow_nil 0) hscan
      rcases callbackLoop_calls records call distinctValues [] h with h1 | ⟨kv, hkv, hrows⟩
      · simp at h1
      · refine ⟨kv.2, (hinv kv hkv).1, ?_, collectRows_some records kv.2 call hrows⟩
        intro i hi
        have := (hinv kv hkv).2 i hi
        simp only [List.length_take, Nat.zero_add] at this
        omega
  · simp at h

theorem resolve_string_of_mem (v : CSVDistinct) (header : List String)
    (rest : List (List String)) (strValue : String)
    (hh : v.Config.HasHeader = true) (hmem : strValue ∈ header) :
    ∃ column : Int, resolve v (header :: rest) (.string strValue) = .ok column 1 := by
  obtain ⟨k, hk, _, _⟩ := headerLoop_of_mem strValue header 0 (-1) hmem
  have hne : headerLoop strValue header 0 (-1) ≠ -1 := by
    rw [hk]
    omega
  refine ⟨headerLoop strValue header 0 (-1), ?_⟩
  simp only [resolve, hh, if_true, hne, if_false]

/-- The scanning loop of `ReadCSV` sees at most one row, so the map it builds
has at most one entry: the iteration order of the map is not observable. -/
theorem scanLoop_take_length_le_one (column : Int) (records : List (List String))
    (startIndex : Nat) (distinctValues : List (String × List Nat)) (hs : startIndex ≤ 1)
    (h : scanLoop column (records.take startIndex) 0 [] = some distinctValues) :
    distinctValues.length ≤ 1 := by
  have hlen : (records.take startIndex).length ≤ 1 := by
    rw [List.length_take]
    omega
  match hrows : records.take startIndex, hlen with
  | [], _ =>
      rw [hrows] at h
      simp only [scanLoop, Option.some.injEq] at h
      subst h
      simp
  | [row], _ =>
      rw [hrows] at h
      unfold scanLoop at h
      cases hk : index row column with
      | none => simp [hk] at h
      | some key =>
          simp only [hk, mapAppend, scanLoop, Option.some.injEq] at h
          subst h
          simp
  | _ :: _ :: _, hl => simp at hl

theorem resolve_startIndex_le_one (v : CSVDistinct) (records : List (List String))
    (idColumn : IdColumn) (column : Int) (startIndex : Nat)
    (h : resolve v records idColumn = .ok column startIndex) : startIndex ≤ 1 := by
  unfold resolve at h
  split at h
  · split at h
    · cases h; exact Nat.le_refl 1
    · split at h
      · cases h
      · simp only at h
        split at h
        · cases h
        · cases h; exact Nat.le_refl 1
    · cases h
  · split at h
    · cases h; exact Nat.zero_le 1
    · cases h

theorem resolve_int (v : CSVDistinct) (records : List (List String)) (intValue : Int) :
    resolve v records (.int intValue) = .ok intValue (if v.Config.HasHeader then 1 else 0) := by
  unfold resolve
  cases v.Config.HasHeader <;> rfl

/-! ## The scanning loop keeps keys distinct and entries keyed -/

theorem mapAppend_keys (key : String) (i : Nat) :
    ∀ distinctValues : List (String × List Nat),
      (mapAppend distinctValues key i).map Prod.fst =
        if key ∈ distinctValues.map Prod.fst then distinctValues.map Prod.fst
        else distinctValues.map Prod.fst ++ [key]
  | [] => by simp [mapAppend]
  | (k, v) :: rest => by
      unfold mapAppend
      by_cases hk : k = key
      · simp [hk]
      · have hk2 : ¬ key = k := fun e => hk e.symm
        simp only [hk, if_false, List.map_cons, mapAppend_keys key i rest, List.mem_cons, hk2,
          false_or]
        split <;> simp

theorem mapAppend_mem (key : String) (i : Nat) (kv : String × List Nat) :
    ∀ distinctValues : List (String × List Nat), kv ∈ mapAppend distinctValues key i →
      kv ∈ distinctValues ∨
        (kv.1 = key ∧ ∃ v, kv.2 = v ++ [i] ∧ (v = [] ∨ (key, v) ∈ distinctValues))
  | [], h => by
      simp only [mapAppend, List.mem_singleton] at h
      subst h
      exact Or.inr ⟨rfl, [], rfl, Or.inl rfl⟩
  | (k, v) :: rest, h => by
      unfold mapAppend at h
      split at h
      · rename_i hk
        rcases List.mem_cons.mp h with e | m
        · subst e
          exact Or.inr ⟨hk, v, rfl, Or.inr (by rw [← hk]; exact List.mem_cons_self _ _)⟩
        · exact Or.inl (List.mem_cons_of_mem _ m)
      · rcases List.mem_cons.mp h with e | m
        · subst e
          exact Or.inl (List.mem_cons_self _ _)
        · rcases mapAppend_mem key i kv rest m with h1 | ⟨h1, w, h2, h3⟩
          · exact Or.inl (List.mem_cons_of_mem _ h1)
          · refine Or.inr ⟨h1, w, h2, ?_⟩
            rcases h3 with h3 | h3
            · exact Or.inl h3
            · exact Or.inr (List.mem_cons_of_mem _ h3)

theorem mapAppend_groupsKeyed (rows : List (List String)) (column : Int) (key : String)
    (i : Nat) (row : List String) (hrow : rows[i]? = some row)
    (hkey : index row column = some key) (distinctValues : List (String × List Nat))
    (hinv : GroupsKeyed rows column distinctValues) :
    GroupsKeyed rows column (mapAppend distinctValues key i) := by
  refine ⟨?_, ?_⟩
  · rw [mapAppend_keys]
    split
    · exact hinv.1
    · rename_i hnot
      rw [List.nodup_append]
      refine ⟨hinv.1, List.nodup_singleton _, ?_⟩
      intro a ha hb
      rw [List.mem_singleton] at hb
      subst hb
      exact hnot ha
  · intro kv hkv
    rcases mapAppend_mem key i kv distinctValues hkv with h | ⟨h1, w, h2, h3⟩
    · exact hinv.2 kv h
    · refine ⟨by rw [h2]; simp, ?_⟩
      intro j hj
      rw [h2] at hj
      rcases List.mem_append.mp hj with hj1 | hj1
      · rcases h3 with h3 | h3
        · rw [h3] at hj1
          simp at hj1
        · have := (hinv.2 (key, w) h3).2 j hj1
          rw [h1]
          exact this
      · rw [List.mem_singleton] at hj1
        subst hj1
        exact ⟨row, hrow, by rw [h1]; exact hkey⟩

theorem scanLoop_groupsKeyed_from (allRows : List (List String)) (column : Int) :
    ∀ (rows : List (List String)) (i : Nat) (distinctValues result : List (String × List Nat)),
      allRows.drop i = rows → GroupsKeyed allRows column distinctValues →
      scanLoop column rows i distinctValues = some result → GroupsKeyed allRows column result
  | [], _, distinctValues, result, _, hinv, h => by
      simp only [scanLoop, Option.some.injEq] at h
      subst h
      exact hinv
  | v :: rest, i, distinctValues, result, hdrop, hinv, h => by
      unfold scanLoop at h
      cases hk : index v column with
      | none => simp [hk] at h
      | some key =>
          simp only [hk] at h
          have hrow : allRows[i]? = some v := by
            have := congrArg List.head? hdrop
            simpa [List.head?_drop] using this
          have hrest : allRows.drop (i + 1) = rest := by
            have := congrArg List.tail hdrop
            simpa [List.tail_drop] using this
          exact scanLoop_groupsKeyed_from allRows column rest (i + 1) _ result hrest
            (mapAppend_groupsKeyed allRows column key i v hrow hk distinctValues hinv) h

/-- The scanning loop run on any list of rows from an empty map: the keys of the
resulting map are pairwise distinct, every entry has at least one index, and
every row listed in an entry holds the key of the entry at `column`. -/
theorem scanLoop_groupsKeyed (column : Int) (rows : List (List String))
    (result : List (String × List Nat)) (h : scanLoop column rows 0 [] = some result) :
    GroupsKeyed rows column result :=
  scanLoop_groupsKeyed_from rows column rows 0 [] result (by simp)
    ⟨by simp, fun kv hkv => by simp at hkv⟩ h

/-! ## What the grouping step does on the rows before `startIndex` -/

theorem grouping_zero (records : List (List String)) (column : Int) :
    grouping records 0 column = ⟨.ret none, []⟩ := by
  simp [grouping, scanLoop, callbackLoop]

theorem grouping_one_nil (column : Int) : grouping [] 1 column = ⟨.panic, []⟩ := by
  simp [grouping]

theorem grouping_one_cons_none (header : List String) (rest : List (List String))
    (column : Int) (h : index header column = none) :
    grouping (header :: rest) 1 column = ⟨.panic, []⟩ := by
  simp [grouping, scanLoop, h]

theorem grouping_one_cons_some (header : List String) (rest : List (List String))
    (column : Int) (key : String) (h : index header column = some key) :
    grouping (header :: rest) 1 column = ⟨.ret none, [[header]]⟩ := by
  simp [grouping, scanLoop, h, mapAppend, callbackLoop, collectRows]

theorem scanLoop_one_cons_some (header : List String) (rest : List (List String))
    (column : Int) (key : String) (h : index header column = some key) :
    scanLoop column ((header :: rest).take 1) 0 [] = some [(key, [0])] := by
  simp [scanLoop, h, mapAppend]

theorem index_isSome_iff (v : List String) (column : Int) :
    (index v column).isSome = true ↔ 0 ≤ column ∧ column < (v.length : Int) := by
  unfold index
  split
  · rename_i h0
    rw [Option.isSome_iff_exists]
    constructor
    · rintro ⟨a, ha⟩
      have := (List.getElem?_eq_some_iff.mp ha).1
      omega
    · rintro ⟨_, h1⟩
      have hlt : column.toNat < v.length := by omega
      exact ⟨v[column.toNat], List.getElem?_eq_getElem hlt⟩
  · rename_i h0
    simp [h0]

/-- Every run either makes no call at all, or it is a run on a non-empty
document in header mode whose single call carries the first row. -/
theorem ReadCSV_calls_cases (v : CSVDistinct) (file : Source) (idColumn : IdColumn) :
    (ReadCSV v file idColumn).calls = [] ∨
      ∃ header rest column key, file = .records (header :: rest) ∧
        resolve v (header :: rest) idColumn = .ok column 1 ∧
        index header column = some key ∧
        ReadCSV v file idColumn = ⟨.ret none, [[header]]⟩ := by
  cases file with
  | openFails msg => exact Or.inl rfl
  | readFails msg => exact Or.inl rfl
  | records records =>
      cases hres : resolve v records idColumn with
      | stop r => exact Or.inl (by simp [ReadCSV, hres])
      | ok column startIndex =>
          have hle := resolve_startIndex_le_one v records idColumn column startIndex hres
          have hrun : ReadCSV v (.records records) idColumn = grouping records startIndex column := by
            simp [ReadCSV, hres]
          rw [hrun]
          match startIndex, hle, hres with
          | 0, _, _ => exact Or.inl (by rw [grouping_zero])
          | 1, _, hres =>
              cases records with
              | nil => exact Or.inl (by rw [grouping_one_nil])
              | cons header rest =>
                  cases hk : index header column with
                  | none => exact Or.inl (by rw [grouping_one_cons_none header rest column hk])
                  | some key =>
                      exact Or.inr ⟨header, rest, column, key, rfl, hres, hk,
                        grouping_one_cons_some header rest column key hk⟩

theorem index_natCast (v : List String) (i : Nat) : index v (i : Int) = v[i]? := by
  simp [index]

theorem resolve_string_index (v : CSVDistinct) (header : List String)
    (rest : List (List String)) (strValue : String)
    (hh : v.Config.HasHeader = true) (hmem : strValue ∈ header) :
    ∃ i : Nat, resolve v (header :: rest) (.string strValue) = .ok (i : Int) 1 ∧
      header[i]? = some strValue := by
  obtain ⟨k, hk, hget, _⟩ := headerLoop_of_mem strValue header 0 (-1) hmem
  refine ⟨k, ?_, hget⟩
  have hne : headerLoop strValue header 0 (-1) ≠ -1 := by
    rw [hk]
    omega
  simp only [resolve, hh, if_true, hne, if_false]
  rw [hk]
  simp

/-! ## The calls of the grouping step, entry by entry -/

theorem callbackLoop_calls_getElem (records : List (List String)) (a : Nat)
    (call : List (List String)) :
    ∀ (distinctValues : List (String × List Nat)) (calls : List (List (List String))),
      (callbackLoop records distinctValues calls).calls[a]? = some call →
      calls[a]? = some call ∨
        (calls.length ≤ a ∧ ∃ kv, distinctValues[a - calls.length]? = some kv ∧
          collectRows records kv.2 = some call)
  | [], calls, h => Or.inl h
  | (k, v) :: rest, calls, h => by
      unfold callbackLoop at h
      cases hc : collectRows records v with
      | none =>
          simp only [hc] at h
          exact Or.inl h
      | some rows =>
          simp only [hc] at h
          rcases callbackLoop_calls_getElem records a call rest (calls ++ [rows]) h with
            h1 | ⟨hle, kv, hkv, hrows⟩
          · by_cases hlt : a < calls.length
            · left
              rw [List.getElem?_append_left hlt] at h1
              exact h1
            · have hge : calls.length ≤ a := Nat.le_of_not_lt hlt
              rw [List.getElem?_append_right hge] at h1
              have ha0 : a - calls.length = 0 := by
                by_contra hne
                obtain ⟨n, hn⟩ := Nat.exists_eq_succ_of_ne_zero hne
                rw [hn] at h1
                simp at h1
              rw [ha0] at h1
              simp only [List.getElem?_cons_zero, Option.some.injEq] at h1
              refine Or.inr ⟨hge, (k, v), by rw [ha0]; simp, ?_⟩
              rw [← h1]
              exact hc
          · simp only [List.length_append, List.length_singleton] at hle hkv
            refine Or.inr ⟨by omega, kv, ?_, hrows⟩
            have hsub : a - calls.length = (a - (calls.length + 1)) + 1 := by omega
            rw [hsub, List.getElem?_cons_succ]
            exact hkv

/-- The `a`-th call of the grouping step carries the rows of the `a`-th entry
of the map built by the scanning loop. -/
theorem grouping_calls_getElem (records : List (List String)) (startIndex : Nat)
    (column : Int) (a : Nat) (call : List (List String))
    (h : (grouping records startIndex column).calls[a]? = some call) :
    ∃ distinctValues kv,
      scanLoop column (records.take startIndex) 0 [] = some distinctValues ∧
      distinctValues[a]? = some kv ∧ collectRows records kv.2 = some call := by
  unfold grouping at h
  split at h
  · split at h
    · simp at h
    · rename_i distinctValues hscan
      rcases callbackLoop_calls_getElem records a call distinctValues [] h with
        h1 | ⟨_, kv, hkv, hrows⟩
      · simp at h1
      · exact ⟨distinctValues, kv, hscan, by simpa using hkv, hrows⟩
  · simp at h

/-- The rows collected for an entry of a keyed map are at least one, and each
holds the key of the entry at `column`. -/
theorem collectRows_keyed (records : List (List String)) (startIndex : Nat) (column : Int)
    (distinctValues : List (String × List Nat)) (kv : String × List Nat)
    (call : List (List String))
    (hinv : GroupsKeyed (records.take startIndex) column distinctValues)
    (hkv : kv ∈ distinctValues) (hrows : collectRows records kv.2 = some call) :
    call ≠ [] ∧ ∀ row ∈ call, index row column = some kv.1 := by
  have hmap := collectRows_some records kv.2 call hrows
  obtain ⟨hne, hkey⟩ := hinv.2 kv hkv
  refine ⟨?_, ?_⟩
  · intro hnil
    rw [hnil] at hmap
    simp only [List.map_nil, List.map_eq_nil_iff] at hmap
    exact hne hmap
  · intro row hrow
    have hmem : some row ∈ call.map some := List.mem_map_of_mem _ hrow
    rw [← hmap] at hmem
    obtain ⟨j, hj, hjrow⟩ := List.mem_map.mp hmem
    obtain ⟨row0, hrow0, hidx⟩ := hkey j hj
    rw [List.getElem?_take] at hrow0
    split at hrow0
    · rw [hjrow] at hrow0
      cases hrow0
      exact hidx
    · cases hrow0

/-- Any two calls of the grouping step, at any scan boundary: both carry at
least one row, each carries rows with one key at `column`, and two different
calls carry different keys. -/
theorem grouping_calls_keyed (records : List (List String)) (startIndex : Nat)
    (column : Int) (a b : Nat) (callA callB : List (List String))
    (ha : (grouping records startIndex column).calls[a]? = some callA)
    (hb : (grouping records startIndex column).calls[b]? = some callB) :
    ∃ keyA keyB,
      callA ≠ [] ∧ (∀ row ∈ callA, index row column = some keyA) ∧
      callB ≠ [] ∧ (∀ row ∈ callB, index row column = some keyB) ∧
      (a ≠ b → keyA ≠ keyB) := by
  obtain ⟨m, kvA, hscan, hA, hrowsA⟩ := grouping_calls_getElem records startIndex column a callA ha
  obtain ⟨m2, kvB, hscan2, hB, hrowsB⟩ :=
    grouping_calls_getElem records startIndex column b callB hb
  rw [hscan] at hscan2
  cases hscan2
  have hinv := scanLoop_groupsKeyed column (records.take startIndex) m hscan
  obtain ⟨hneA, hkeyA⟩ :=
    collectRows_keyed records startIndex column m kvA callA hinv (List.getElem?_mem hA) hrowsA
  obtain ⟨hneB, hkeyB⟩ :=
    collectRows_keyed records startIndex column m kvB callB hinv (List.getElem?_mem hB) hrowsB
  refine ⟨kvA.1, kvB.1, hneA, hkeyA, hneB, hkeyB, ?_⟩
  intro hab hkeys
  have hlt : a < (m.map Prod.fst).length := by
    rw [List.length_map]
    exact (List.getElem?_eq_some_iff.mp hA).1
  have hfa : (m.map Prod.fst)[a]? = some kvA.1 := by simp [hA]
  have hfb : (m.map Prod.fst)[b]? = some kvB.1 := by simp [hB]
  exact hab (List.getElem?_inj hlt hinv.1 (by rw [hfa, hfb, hkeys]))

/-- A run of `ReadCSV` that makes a call is the grouping step run on the parsed
document at the resolved column and boundary. -/
theorem ReadCSV_eq_grouping_of_call (v : CSVDistinct) (file : Source) (idColumn : IdColumn)
    (h : (ReadCSV v file idColumn).calls ≠ []) :
    ∃ records column startIndex, file = .records records ∧
      resolve v records idColumn = .ok column startIndex ∧
      ReadCSV v file idColumn = grouping records startIndex column := by
  cases file with
  | openFails msg => exact absurd rfl h
  | readFails msg => exact absurd rfl h
  | records records =>
      cases hres : resolve v records idColumn with
      | stop r => exact absurd (by simp [ReadCSV, hres]) h
      | ok column startIndex =>
          exact ⟨records, column, startIndex, rfl, hres, by simp [ReadCSV, hres]⟩

/-! ## The claims -/

/-- C1 (partition), evaluated on the code: with `HasHeader` false, the one-row
document `[["1","Alice"]]` and column `0`, `ReadCSV` returns `nil` and never
calls the callback, so the only data row is omitted; with `HasHeader` true and
the document `[["id","name"],["1","Alice"]]` the single call carries the header
row and the data row is delivered nowhere. -/
theorem C1_data_rows_not_delivered :
    ReadCSV (reader false) (.records [["1", "Alice"]]) (.int 0) = ⟨.ret none, []⟩ ∧
    ReadCSV (reader true) (.records [["id", "name"], ["1", "Alice"]]) (.string "id")
      = ⟨.ret none, [[["id", "name"]]]⟩ ∧
    ¬ ∃ call ∈ (ReadCSV (reader true) (.records [["id", "name"], ["1", "Alice"]])
        (.string "id")).calls, ["1", "Alice"] ∈ call := by
  decide

/-- C2 (once per distinct value), evaluated on the code: on the document
`[id,name],[1,Alice],[2,Bob],[1,Alicia]` with `HasHeader` true and reference
`"id"`, `ReadCSV` returns `nil` after a single call whose argument is the list
holding the header row, not the two calls `[[1,Alice],[1,Alicia]]` and
`[[2,Bob]]`. -/
theorem C2_minimal_scenario_one_call_with_header :
    ReadCSV (reader true)
        (.records [["id", "name"], ["1", "Alice"], ["2", "Bob"], ["1", "Alicia"]])
        (.string "id")
      = ⟨.ret none, [[["id", "name"]]]⟩ := by
  decide

/-- C3 (equivalence), evaluated on the code: on the document
`[k,h],[1,a],[1,b]` with `HasHeader` true and column `0` the run succeeds, the
data rows `[1,a]` and `[1,b]` hold the same string at column `0`, and no call
of the callback receives both of them. -/
theorem C3_equal_keys_not_delivered_together :
    (ReadCSV (reader true) (.records [["k", "h"], ["1", "a"], ["1", "b"]]) (.int 0)).result
      = .ret none ∧
    index ["1", "a"] 0 = index ["1", "b"] 0 ∧
    ¬ ∃ call ∈ (ReadCSV (reader true) (.records [["k", "h"], ["1", "a"], ["1", "b"]])
        (.int 0)).calls, ["1", "a"] ∈ call ∧ ["1", "b"] ∈ call := by
  decide

/-- C4 (order preservation): whatever the document, the scan boundary
`startIndex` and the column are, every list that the grouping step of lines
95-111 passes to the callback consists of the document rows found at a strictly
increasing list of document indices (all below `startIndex`), hence is a
sublist of the document; in particular, in every run of `ReadCSV` that returns
`nil`, every list passed to the callback consists of the rows of the parsed
document at strictly increasing indices and is a sublist of it. -/
theorem C4_order_preserved (records : List (List String)) (startIndex : Nat) (column : Int)
    (call : List (List String))
    (hcall : call ∈ (grouping records startIndex column).calls) :
    ((∃ idxs : List Nat, idxs.Pairwise (· < ·) ∧ (∀ i ∈ idxs, i < startIndex) ∧
        idxs.map (fun i => records[i]?) = call.map some) ∧
      call.Sublist records) ∧
    ∀ (v : CSVDistinct) (file : Source) (idColumn : IdColumn) (c : List (List String)),
      (ReadCSV v file idColumn).result = .ret none → c ∈ (ReadCSV v file idColumn).calls →
      ∃ recs, file = .records recs ∧
        (∃ idxs : List Nat, idxs.Pairwise (· < ·) ∧
          idxs.map (fun i => recs[i]?) = c.map some) ∧
        c.Sublist recs := by
  have general : ∀ (recs : List (List String)) (start : Nat) (col : Int)
      (c : List (List String)), c ∈ (grouping recs start col).calls →
      (∃ idxs : List Nat, idxs.Pairwise (· < ·) ∧ (∀ i ∈ idxs, i < start) ∧
        idxs.map (fun i => recs[i]?) = c.map some) ∧ c.Sublist recs := by
    intro recs start col c hc
    obtain ⟨idxs, hp, hlt, hmap⟩ := grouping_calls recs start col c hc
    refine ⟨⟨idxs, hp, hlt, hmap⟩, ?_⟩
    simpa using
      sublist_of_increasing_indices recs idxs c 0 hp (fun _ _ => Nat.zero_le _) hmap
  refine ⟨general records startIndex column call hcall, ?_⟩
  intro v file idColumn c _ hc
  obtain ⟨recs, col, start, hfile, _, hrun⟩ :=
    ReadCSV_eq_grouping_of_call v file idColumn (List.ne_nil_of_mem hc)
  rw [hrun] at hc
  obtain ⟨⟨idxs, hp, _, hmap⟩, hsub⟩ := general recs start col c hc
  exact ⟨recs, hfile, ⟨idxs, hp, hmap⟩, hsub⟩

/-- C4 on the three-row document `[1,a],[2,b],[1,c]` scanned up to boundary 3
at column 0: the calls are `[[1,a],[1,c]]` and `[[2,b]]`, and the two-row call
keeps the document order of its rows. -/
theorem C4_order_preserved_witness :
    grouping [["1", "a"], ["2", "b"], ["1", "c"]] 3 0
      = ⟨.ret none, [[["1", "a"], ["1", "c"]], [["2", "b"]]]⟩ ∧
    (∃ idxs : List Nat, idxs.Pairwise (· < ·) ∧ (∀ i ∈ idxs, i < 3) ∧
      idxs.map (fun i => ([["1", "a"], ["2", "b"], ["1", "c"]] : List (List String))[i]?)
        = ([["1", "a"], ["1", "c"]] : List (List String)).map some) ∧
    ([["1", "a"], ["1", "c"]] : List (List String)).Sublist
      [["1", "a"], ["2", "b"], ["1", "c"]] :=
  ⟨by decide,
    (C4_order_preserved [["1", "a"], ["2", "b"], ["1", "c"]] 3 0 [["1", "a"], ["1", "c"]]
      (by decide)).1⟩

/-- C5 (last match wins): with `HasHeader` true and a string reference that
occurs in the first row, the column resolved by `ReadCSV` is the greatest
position of the first row whose field equals the reference (and the scan
boundary `startIndex` is 1). -/
theorem C5_last_match_wins (v : CSVDistinct) (header : List String)
    (rest : List (List String)) (strValue : String)
    (hh : v.Config.HasHeader = true) (hmem : strValue ∈ header) :
    ∃ i : Nat, resolve v (header :: rest) (.string strValue) = .ok (i : Int) 1 ∧
      header[i]? = some strValue ∧ ∀ j, header[j]? = some strValue → j ≤ i := by
  obtain ⟨k, hk, hget, hmax⟩ := headerLoop_of_mem strValue header 0 (-1) hmem
  refine ⟨k, ?_, hget, hmax⟩
  have hne : headerLoop strValue header 0 (-1) ≠ -1 := by
    rw [hk]
    omega
  simp only [resolve, hh, if_true, hne, if_false]
  rw [hk]
  simp

/-- C5 at header `["a","b","a"]` and reference `"a"`: the resolved column is 2,
not 0. -/
theorem C5_last_match_wins_witness :
    resolve (reader true) [["a", "b", "a"]] (.string "a") = .ok 2 1 ∧
    resolve (reader true) [["a", "b", "a"]] (.string "a") ≠ .ok 0 1 ∧
    ∃ i : Nat, resolve (reader true) [["a", "b", "a"]] (.string "a") = .ok (i : Int) 1 ∧
      (["a", "b", "a"] : List String)[i]? = some "a" ∧
      ∀ j, (["a", "b", "a"] : List String)[j]? = some "a" → j ≤ i :=
  ⟨by decide, by decide,
    C5_last_match_wins (reader true) ["a", "b", "a"] [] "a" (by decide) (by decide)⟩

/-- C6 (column not found): on a non-empty document with `HasHeader` true and a
string reference, `ReadCSV` returns `ErrIDColumnMissing` if and only if no
field of the first row equals the reference. -/
theorem C6_column_missing_iff (v : CSVDistinct) (header : List String)
    (rest : List (List String)) (strValue : String)
    (hh : v.Config.HasHeader = true) :
    (ReadCSV v (.records (header :: rest)) (.string strValue)).result
        = .ret (some .ErrIDColumnMissing) ↔ strValue ∉ header := by
  constructor
  · intro hres hmem
    obtain ⟨column, hcol⟩ := resolve_string_of_mem v header rest strValue hh hmem
    simp only [ReadCSV, hcol] at hres
    rcases grouping_result (header :: rest) 1 column with h | h <;> rw [h] at hres <;>
      simp at hres
  · intro hnot
    have hcol := headerLoop_of_not_mem strValue header 0 (-1) hnot
    simp [ReadCSV, resolve, hh, hcol]

/-- C6 at header `["x","y"]` and reference `"z"`: the run fails with
`ErrIDColumnMissing`. -/
theorem C6_column_missing_iff_witness :
    (ReadCSV (reader true) (.records [["x", "y"]]) (.string "z")).result
        = .ret (some .ErrIDColumnMissing) ∧
    ((ReadCSV (reader true) (.records [["x", "y"]]) (.string "z")).result
        = .ret (some .ErrIDColumnMissing) ↔ "z" ∉ (["x", "y"] : List String)) :=
  ⟨by decide, C6_column_missing_iff (reader true) ["x", "y"] [] "z" (by decide)⟩

/-- C7 (invalid column reference): on every parsed document, `ReadCSV` returns
`ErrInvalidIDColumn` exactly when the reference is not an integer and either
`HasHeader` is false or the reference is not a string either; in particular,
whatever the other options and the document, header mode off with the string
reference `"id"` fails with `ErrInvalidIDColumn`. -/
theorem C7_invalid_column_iff (v : CSVDistinct) (records : List (List String))
    (idColumn : IdColumn) :
    ((ReadCSV v (.records records) idColumn).result = .ret (some .ErrInvalidIDColumn) ↔
      ((∀ n, idColumn ≠ .int n) ∧
        (v.Config.HasHeader = false ∨ ∀ s, idColumn ≠ .string s))) ∧
    (ReadCSV { v with Config := { v.Config with HasHeader := false } } (.records records)
        (.string "id")).result = .ret (some .ErrInvalidIDColumn) := by
  refine ⟨?_, by simp [ReadCSV, resolve]⟩
  cases idColumn with
  | int n =>
      have hres : (ReadCSV v (.records records) (.int n)).result ≠
          .ret (some .ErrInvalidIDColumn) := by
        simp only [ReadCSV, resolve_int]
        intro hres
        rcases grouping_result records (if v.Config.HasHeader then 1 else 0) n with h | h <;>
          rw [h] at hres <;> simp at hres
      constructor
      · intro h
        exact absurd h hres
      · intro h
        exact absurd rfl (h.1 n)
  | string s =>
      cases hh : v.Config.HasHeader with
      | false => simp [ReadCSV, resolve, hh]
      | true =>
          have hres : (ReadCSV v (.records records) (.string s)).result ≠
              .ret (some .ErrInvalidIDColumn) := by
            cases records with
            | nil => simp [ReadCSV, resolve, hh]
            | cons header rest =>
                by_cases hmem : s ∈ header
                · obtain ⟨column, hcol⟩ := resolve_string_of_mem v header rest s hh hmem
                  simp only [ReadCSV, hcol]
                  intro hres
                  rcases grouping_result (header :: rest) 1 column with h | h <;>
                    rw [h] at hres <;> simp at hres
                · have hcol := headerLoop_of_not_mem s header 0 (-1) hmem
                  simp [ReadCSV, resolve, hh, hcol]
          constructor
          · intro h
            exact absurd h hres
          · rintro ⟨_, h | h⟩
            · simp at h
            · exact absurd rfl (h s)
  | other =>
      cases hh : v.Config.HasHeader <;> simp [ReadCSV, resolve, hh]

/-- C8 (no callback on early failure): whenever `ReadCSV` returns an error
value (`ErrInvalidIDColumn`, `ErrIDColumnMissing`, or the error of the open or
parse step), the callback has not been called. -/
theorem C8_no_callback_on_error (v : CSVDistinct) (file : Source) (idColumn : IdColumn)
    (e : Error) (h : (ReadCSV v file idColumn).result = .ret (some e)) :
    (ReadCSV v file idColumn).calls = [] := by
  cases file with
  | openFails msg => rfl
  | readFails msg => rfl
  | records records =>
      unfold ReadCSV at h ⊢
      simp only at h ⊢
      split
      · rfl
      · rename_i column startIndex hres
        rw [hres] at h
        rcases grouping_result records startIndex column with h1 | h1 <;> rw [h1] at h <;>
          simp at h

/-- C8 at three failing runs: a string reference without header mode, a name
absent from the header, and a file that cannot be opened. -/
theorem C8_no_callback_on_error_witness :
    (ReadCSV (reader false) (.records [["a"], ["b"]]) (.string "id")).calls = [] ∧
    (ReadCSV (reader true) (.records [["x", "y"], ["1", "2"]]) (.string "z")).calls = [] ∧
    (ReadCSV (reader true) (.openFails "no such file") (.int 0)).calls = [] :=
  ⟨C8_no_callback_on_error (reader false) (.records [["a"], ["b"]]) (.string "id")
      .ErrInvalidIDColumn (by decide),
    C8_no_callback_on_error (reader true) (.records [["x", "y"], ["1", "2"]]) (.string "z")
      .ErrIDColumnMissing (by decide),
    C8_no_callback_on_error (reader true) (.openFails "no such file") (.int 0)
      (.external "no such file") (by decide)⟩

/-- C9 (out-of-range column), evaluated on the code: with `HasHeader` false the
document `[["a"]]` and column `5` (or `-1`) give a `nil` return although the
data row has no field at that column; with `HasHeader` true the document
`[["a","b"],["x"]]` and column `1` give a `nil` return although the data row
`["x"]` has a single field.  The access `v[column]` does fault on a short row
that the loop scans: with `HasHeader` true the same document `[["a"]]` and
column `5` end in a panic without any call. -/
theorem C9_short_data_row_returns_nil :
    index ["a"] 5 = none ∧
    ReadCSV (reader false) (.records [["a"]]) (.int 5) = ⟨.ret none, []⟩ ∧
    index ["a"] (-1) = none ∧
    ReadCSV (reader false) (.records [["a"]]) (.int (-1)) = ⟨.ret none, []⟩ ∧
    index ["x"] 1 = none ∧
    ReadCSV (reader true) (.records [["a", "b"], ["x"]]) (.int 1)
      = ⟨.ret none, [[["a", "b"]]]⟩ ∧
    ReadCSV (reader true) (.records [["a"]]) (.int 5) = ⟨.panic, []⟩ := by
  decide

/-- C10 (empty-data scenario), evaluated on the code: on the header-only
document `[["id","name"]]` with `HasHeader` true, the reference `"id"` and the
reference `0` both give a `nil` return after one call of the callback, whose
argument is the list holding the header row. -/
theorem C10_header_only_document_one_call :
    ReadCSV (reader true) (.records [["id", "name"]]) (.string "id")
      = ⟨.ret none, [[["id", "name"]]]⟩ ∧
    ReadCSV (reader true) (.records [["id", "name"]]) (.int 0)
      = ⟨.ret none, [[["id", "name"]]]⟩ := by
  decide

/-- C11 (empty document), evaluated on the code: on a document without rows and
an integer reference, header mode off gives a `nil` return and no call, but
header mode on ends in a panic (the slice `records[:1]` of a slice without
capacity), whatever the other options and the integer are. -/
theorem C11_empty_document_header_mode_panics (v : CSVDistinct) (n : Int) :
    ReadCSV { v with Config := { v.Config with HasHeader := true } } (.records []) (.int n)
      = ⟨.panic, []⟩ ∧
    ReadCSV { v with Config := { v.Config with HasHeader := false } } (.records []) (.int n)
      = ⟨.ret none, []⟩ := by
  constructor <;> simp [ReadCSV, resolve, grouping_one_nil, grouping_zero]

/-- C12 (default configuration): the reader returned by `NewCSVDistinctReader`
has `Comma` equal to the code point of the comma character, `HasHeader` false,
`Comment` 0, `FieldsPerRecord` 0, and `LazyQuotes`, `TrailingComma` and
`TrimLeadingSpace` false. -/
theorem C12_default_configuration :
    NewCSVDistinctReader.Config.Comma = ((',' : Char).toNat : Int) ∧
    NewCSVDistinctReader.Config.HasHeader = false ∧
    NewCSVDistinctReader.Config.Comment = 0 ∧
    NewCSVDistinctReader.Config.FieldsPerRecord = 0 ∧
    NewCSVDistinctReader.Config.LazyQuotes = false ∧
    NewCSVDistinctReader.Config.TrailingComma = false ∧
    NewCSVDistinctReader.Config.TrimLeadingSpace = false := by
  decide

/-- C13 (the scan covers only the rows before `startIndex`): with header mode
off and an integer reference, `ReadCSV` returns `nil` without any call whatever
the document holds; with header mode on, a non-empty document and a reference
resolved to a column that is a valid index of the first row, `startIndex` is 1,
the run returns `nil` after exactly one call whose argument is the one-element
list holding the first row, and the only document position in the map is 0;
and in header mode any run on any input either makes no call or makes the
single call holding the first row, so no data row is delivered. -/
theorem C13_scan_stops_at_header (v : CSVDistinct) (records : List (List String)) (n : Int)
    (header : List String) (rest : List (List String)) (idColumn : IdColumn)
    (column : Int) (startIndex : Nat) (file : Source) (anyColumn : IdColumn)
    (hh : v.Config.HasHeader = true)
    (hres : resolve v (header :: rest) idColumn = .ok column startIndex)
    (h0 : 0 ≤ column) (hlt : column < (header.length : Int)) :
    ReadCSV { v with Config := { v.Config with HasHeader := false } } (.records records) (.int n)
      = ⟨.ret none, []⟩ ∧
    startIndex = 1 ∧
    ReadCSV v (.records (header :: rest)) idColumn = ⟨.ret none, [[header]]⟩ ∧
    (∃ key, scanLoop column ((header :: rest).take startIndex) 0 [] = some [(key, [0])]) ∧
    ((ReadCSV v file anyColumn).calls = [] ∨
      ∃ first others, file = .records (first :: others) ∧
        (ReadCSV v file anyColumn).calls = [[first]]) := by
  have hstart : startIndex = 1 := by
    cases idColumn with
    | int m =>
        simp only [resolve, hh, if_true] at hres
        cases hres
        rfl
    | string s =>
        simp only [resolve, hh, if_true] at hres
        split at hres
        · cases hres
        · cases hres
          rfl
    | other => simp [resolve, hh] at hres
  subst hstart
  have hsome : (index header column).isSome = true :=
    (index_isSome_iff header column).mpr ⟨h0, hlt⟩
  obtain ⟨key, hkey⟩ := Option.isSome_iff_exists.mp hsome
  refine ⟨by simp [ReadCSV, resolve, grouping_zero], rfl, ?_, ?_, ?_⟩
  · simp only [ReadCSV, hres]
    exact grouping_one_cons_some header rest column key hkey
  · exact ⟨key, scanLoop_one_cons_some header rest column key hkey⟩
  · rcases ReadCSV_calls_cases v file anyColumn with h | ⟨first, others, _, _, hfile, _, _, hrun⟩
    · exact Or.inl h
    · exact Or.inr ⟨first, others, hfile, by rw [hrun]⟩

/-- C13 at the document `[id,name],[1,Alice],[2,Bob]`: header mode off with
column 0 makes no call; header mode on with reference `"name"` makes the single
call `[[id,name]]`. -/
theorem C13_scan_stops_at_header_witness :
    ReadCSV { reader true with Config := { (reader true).Config with HasHeader := false } }
        (.records [["id", "name"], ["1", "Alice"], ["2", "Bob"]]) (.int 0)
      = ⟨.ret none, []⟩ ∧
    1 = 1 ∧
    ReadCSV (reader true) (.records (["id", "name"] :: [["1", "Alice"], ["2", "Bob"]]))
        (.string "name") = ⟨.ret none, [[["id", "name"]]]⟩ ∧
    (∃ key, scanLoop 1 ((["id", "name"] :: [["1", "Alice"], ["2", "Bob"]]).take 1) 0 []
        = some [(key, [0])]) ∧
    ((ReadCSV (reader true) (.records [["a"], ["b"]]) (.int 0)).calls = [] ∨
      ∃ first others, Source.records [["a"], ["b"]] = .records (first :: others) ∧
        (ReadCSV (reader true) (.records [["a"], ["b"]]) (.int 0)).calls = [[first]]) :=
  C13_scan_stops_at_header (reader true) [["id", "name"], ["1", "Alice"], ["2", "Bob"]] 0
    ["id", "name"] [["1", "Alice"], ["2", "Bob"]] (.string "name") 1 1
    (.records [["a"], ["b"]]) (.int 0) (by decide) (by decide) (by decide) (by decide)

/-- C14 (a resolved name is a safe index): on a non-empty document with header
mode on and a string reference that occurs in the first row, the resolved
column is a position below the length of the first row at which the reference
stands, the scanning loop indexes its rows without a fault, and `ReadCSV`
returns `nil`. -/
theorem C14_resolved_name_is_safe_index (v : CSVDistinct) (header : List String)
    (rest : List (List String)) (strValue : String)
    (hh : v.Config.HasHeader = true) (hmem : strValue ∈ header) :
    ∃ i : Nat, resolve v (header :: rest) (.string strValue) = .ok (i : Int) 1 ∧
      i < header.length ∧
      index header (i : Int) = some strValue ∧
      (scanLoop (i : Int) ((header :: rest).take 1) 0 []).isSome = true ∧
      (ReadCSV v (.records (header :: rest)) (.string strValue)).result = .ret none := by
  obtain ⟨i, hres, hget⟩ := resolve_string_index v header rest strValue hh hmem
  have hidx : index header (i : Int) = some strValue := by
    rw [index_natCast]
    exact hget
  refine ⟨i, hres, (List.getElem?_eq_some_iff.mp hget).1, hidx, ?_, ?_⟩
  · rw [scanLoop_one_cons_some header rest (i : Int) strValue hidx]
    rfl
  · simp only [ReadCSV, hres]
    rw [grouping_one_cons_some header rest (i : Int) strValue hidx]

/-- C14 at header `["a","b","a"]` followed by the short data row `["x"]`, with
reference `"a"`. -/
theorem C14_resolved_name_is_safe_index_witness :
    ∃ i : Nat, resolve (reader true) (["a", "b", "a"] :: [["x"]]) (.string "a")
        = .ok (i : Int) 1 ∧
      i < (["a", "b", "a"] : List String).length ∧
      index ["a", "b", "a"] (i : Int) = some "a" ∧
      (scanLoop (i : Int) ((["a", "b", "a"] :: [["x"]]).take 1) 0 []).isSome = true ∧
      (ReadCSV (reader true) (.records (["a", "b", "a"] :: [["x"]])) (.string "a")).result
        = .ret none :=
  C14_resolved_name_is_safe_index (reader true) ["a", "b", "a"] [["x"]] "a"
    (by decide) (by decide)

/-- C15 (no empty group): whatever the document, the scan boundary `startIndex`
and the column are, the arguments of any two calls made by the grouping step of
lines 95-111 (the `a`-th and the `b`-th, possibly the same call) are non-empty
lists of rows, each holding one key string at the column in all of its rows,
and the two keys differ when the two calls are different calls; in particular
this holds, at the resolved column, for any two calls of any run of `ReadCSV`
on any input. -/
theorem C15_calls_nonempty_uniform_distinct (records : List (List String))
    (startIndex : Nat) (column : Int) (a b : Nat) (callA callB : List (List String))
    (ha : (grouping records startIndex column).calls[a]? = some callA)
    (hb : (grouping records startIndex column).calls[b]? = some callB) :
    (∃ keyA keyB,
      callA ≠ [] ∧ (∀ row ∈ callA, index row column = some keyA) ∧
      callB ≠ [] ∧ (∀ row ∈ callB, index row column = some keyB) ∧
      (a ≠ b → keyA ≠ keyB)) ∧
    ∀ (v : CSVDistinct) (file : Source) (idColumn : IdColumn) (i j : Nat)
      (callI callJ : List (List String)),
      (ReadCSV v file idColumn).calls[i]? = some callI →
      (ReadCSV v file idColumn).calls[j]? = some callJ →
      ∃ recs col start keyI keyJ,
        file = .records recs ∧ resolve v recs idColumn = .ok col start ∧
        callI ≠ [] ∧ (∀ row ∈ callI, index row col = some keyI) ∧
        callJ ≠ [] ∧ (∀ row ∈ callJ, index row col = some keyJ) ∧
        (i ≠ j → keyI ≠ keyJ) := by
  refine ⟨grouping_calls_keyed records startIndex column a b callA callB ha hb, ?_⟩
  intro v file idColumn i j callI callJ hi hj
  have hne : (ReadCSV v file idColumn).calls ≠ [] := by
    intro hnil
    rw [hnil] at hi
    simp at hi
  obtain ⟨recs, col, start, hfile, hres, hrun⟩ := ReadCSV_eq_grouping_of_call v file idColumn hne
  rw [hrun] at hi hj
  obtain ⟨keyI, keyJ, h1, h2, h3, h4, h5⟩ :=
    grouping_calls_keyed recs start col i j callI callJ hi hj
  exact ⟨recs, col, start, keyI, keyJ, hfile, hres, h1, h2, h3, h4, h5⟩

/-- C15 on the three-row document `[1,a],[2,b],[1,c]` scanned up to boundary 3
at column 0: the first call `[[1,a],[1,c]]` and the second call `[[2,b]]` are
non-empty, each has one key at column 0, and the two keys differ. -/
theorem C15_calls_nonempty_uniform_distinct_witness :
    grouping [["1", "a"], ["2", "b"], ["1", "c"]] 3 0
      = ⟨.ret none, [[["1", "a"], ["1", "c"]], [["2", "b"]]]⟩ ∧
    ∃ keyA keyB,
      ([["1", "a"], ["1", "c"]] : List (List String)) ≠ [] ∧
      (∀ row ∈ ([["1", "a"], ["1", "c"]] : List (List String)), index row 0 = some keyA) ∧
      ([["2", "b"]] : List (List String)) ≠ [] ∧
      (∀ row ∈ ([["2", "b"]] : List (List String)), index row 0 = some keyB) ∧
      (0 ≠ 1 → keyA ≠ keyB) :=
  ⟨by decide,
    (C15_calls_nonempty_uniform_distinct [["1", "a"], ["2", "b"], ["1", "c"]] 3 0 0 1
      [["1", "a"], ["1", "c"]] [["2", "b"]] (by decide) (by decide)).1⟩

end Csvdistinct
